import Mathlib

/-!
Verification of the hexlet-go-crawler repository against its specification.

The development shallowly embeds the Go source:

* `urlutil`   : URL normalization helpers (`NormalizeURL`, `IsSameDomain`).
* `httputil`  : the retrying fetcher (`Fetcher.Fetch`, `shouldRetry`).
* `report`    : page records and `SetPageStatus`.
* `checker`   : link checker (`CheckLinks`) and asset checker with cache.
* `parser`    : the DOM walk of `ExtractAssets` over an HTML node tree.
* `crawler`   : the sequential collapse of the crawl loop (`Run`,
  `processSingleURL`, `enqueueInternalLinks`) and, separately, an
  interleaving model of the visited-set check-then-mark used by workers.

Machine integers are modelled as `Int` (Go `int`); fallible operations
return `Option`.  Concurrency is collapsed to sequential execution except
where a claim is specifically about interleaving, where a small explicit
scheduler over worker program counters is used.
-/

namespace Crawler

/-- Model of Go `net/url.URL` restricted to the shape
`scheme://host path ?query #fragment` used by this repository.
User info, opaque URLs and escaping are not exercised by the code paths
under verification. -/
structure GoURL where
  scheme : String
  host : String
  path : String
  query : String
  fragment : String
deriving DecidableEq, Repr

/-- Rendering of a `GoURL`, modelling `url.URL.String()` on the restricted
shape above. -/
def GoURL.render (u : GoURL) : String :=
  u.scheme ++ "://" ++ u.host ++ u.path
    ++ (if u.query = "" then "" else "?" ++ u.query)
    ++ (if u.fragment = "" then "" else "#" ++ u.fragment)

/-- Embedding of `urlutil.NormalizeURL`: clear the fragment, drop a bare
root path "/", and render the result. -/
def normalizeURL (u : GoURL) : String :=
  GoURL.render { u with fragment := "",
                        path := if u.path = "/" then "" else u.path }

/-- Embedding of `urlutil.IsSameDomain`: host equality. -/
def isSameDomain (linkURL baseURL : GoURL) : Bool :=
  linkURL.host == baseURL.host

/-- Embedding of `httputil.FetchResult`: status code, captured HTML body
(empty when none was captured) and the error, `none` on success. -/
structure FetchResult where
  statusCode : Int
  htmlContent : String
  errorMsg : Option String
deriving DecidableEq, Repr

/-- Embedding of `Fetcher.shouldRetry`: network error, HTTP 429, or a
status code in [500, 600). -/
def shouldRetry (result : FetchResult) : Bool :=
  if result.errorMsg ≠ none then true
  else if result.statusCode = 429 then true
  else if 500 ≤ result.statusCode ∧ result.statusCode < 600 then true
  else false

/-- Embedding of the loop body of `Fetcher.Fetch` (cancellation absent):
`attempts i` is the outcome of the i-th `performRequest`, `maxRetries` the
configured retry count, `attempt` the current loop index and `budget` the
number of loop iterations still allowed by the loop condition
`attempt <= maxRetries`.  Returns the result together with the number of
attempts performed.  Falling out of the loop returns the zero
`FetchResult{}` exactly as in the Go source. -/
def fetchFrom (attempts : Nat → FetchResult) (maxRetries : Int) :
    Nat → Nat → FetchResult × Nat
  | attempt, 0 => (⟨0, "", none⟩, attempt)
  | attempt, budget + 1 =>
    let result := attempts attempt
    if result.errorMsg = none ∧ result.statusCode < 500 ∧
        result.statusCode ≠ 429 then
      (result, attempt + 1)
    else if (attempt : Int) = maxRetries ∨ ¬ shouldRetry result then
      (result, attempt + 1)
    else
      fetchFrom attempts maxRetries (attempt + 1) budget

/-- Embedding of `Fetcher.Fetch`: run the attempt loop from index 0; the
loop condition `attempt <= maxRetries` admits `maxRetries + 1` iterations,
none at all when `maxRetries` is negative. -/
def fetchGo (attempts : Nat → FetchResult) (maxRetries : Int) :
    FetchResult × Nat :=
  fetchFrom attempts maxRetries 0
    (if maxRetries < 0 then 0 else maxRetries.toNat + 1)

/-- Embedding of `report.SetPageStatus` as a pure function from the HTTP
status and the current error text to the derived page status and the
updated error text. -/
def setPageStatus (httpStatus : Int) (errText : String) : String × String :=
  if httpStatus = 0 then
    ("error", if errText = "" then "no response received" else errText)
  else if 200 ≤ httpStatus ∧ httpStatus < 300 then ("ok", errText)
  else if 300 ≤ httpStatus ∧ httpStatus < 400 then ("redirect", errText)
  else if 400 ≤ httpStatus ∧ httpStatus < 500 then ("client_error", errText)
  else ("server_error", errText)

/-- Embedding of `crawler.Options` (the HTTP client field, a Go interface
value defaulted to `&http.Client{}`, carries no data relevant to the
verified properties and is modelled by a Bool recording presence). -/
structure Options where
  url : String
  depth : Int
  retries : Int
  delay : Int
  timeout : Int
  userAgent : String
  concurrency : Int
  indentJSON : Bool
  hasHTTPClient : Bool
deriving DecidableEq, Repr

/-- Embedding of `crawler.normalizeOptions`: default the HTTP client,
clamp non-positive concurrency to 4 and non-positive timeout to 15s
(timeout in nanoseconds as Go `time.Duration`).  No other field is
touched. -/
def normalizeOptions (opts : Options) : Options :=
  let opts1 := if ¬ opts.hasHTTPClient then { opts with hasHTTPClient := true }
               else opts
  let opts2 := if opts1.concurrency ≤ 0 then { opts1 with concurrency := 4 }
               else opts1
  if opts2.timeout ≤ 0 then { opts2 with timeout := 15000000000 } else opts2

/-- Embedding of `checker.BrokenLink`: url plus either a status code or an
error text, zero values `0` and `""` respectively. -/
structure BrokenLink where
  url : String
  statusCode : Int
  errorMsg : String
deriving DecidableEq, Repr

/-- Health predicate of `LinkChecker.checkSingleLink`: final status in
[200, 400) and no error. -/
def linkHealthy (result : FetchResult) : Bool :=
  200 ≤ result.statusCode && result.statusCode < 400 &&
    result.errorMsg == none

/-- Embedding of `LinkChecker.checkSingleLink`: `probe` gives the final
outcome of the retrying HEAD request for a link.  Healthy links produce no
record; a broken link carries the error text when an error occurred and
the status code otherwise, the other field staying at its zero value. -/
def checkSingleLink (probe : String → FetchResult) (linkURL : String) :
    Option BrokenLink :=
  if 200 ≤ (probe linkURL).statusCode ∧ (probe linkURL).statusCode < 400 ∧
      (probe linkURL).errorMsg = none then
    none
  else
    some { url := linkURL
           statusCode := match (probe linkURL).errorMsg with
                         | some _ => 0
                         | none => (probe linkURL).statusCode
           errorMsg := match (probe linkURL).errorMsg with
                       | some e => e
                       | none => "" }

/-- Embedding of `LinkChecker.CheckLinks`, concurrency collapsed to
sequential order: returns the broken links, the returned timestamp (the
`now` parameter standing for `time.Now()`), and the number of link probes
issued.  An empty input returns immediately with no probes. -/
def checkLinks (probe : String → FetchResult) (now : String)
    (links : List String) : List BrokenLink × String × Nat :=
  if links.isEmpty then ([], now, 0)
  else (links.filterMap (checkSingleLink probe), now, links.length)

/-- Embedding of `checker.Asset`. -/
structure Asset where
  url : String
  assetType : String
  statusCode : Int
  sizeBytes : Int
  errorMsg : String
deriving DecidableEq, Repr

/-- Embedding of `checker.AssetResult` as produced by
`AssetChecker.fetchAsset`. -/
structure AssetResult where
  statusCode : Int
  sizeBytes : Int
  errorMsg : Option String
deriving DecidableEq, Repr

/-- Lookup in the asset cache, modelling a read of the Go map
`ac.cache[assetURL]`. -/
def cacheLookup (cache : List (String × Asset)) (url : String) :
    Option Asset :=
  match cache.find? (fun e => e.1 == url) with
  | some e => some e.2
  | none => none

/-- Embedding of `AssetChecker.checkSingleAsset`: consult the cache; on a
hit return the cached record verbatim with no fetch; on a miss fetch
(`fetchA` gives the `fetchAsset` outcome), build the record, store it and
return it.  The third component counts network fetches issued. -/
def checkSingleAsset (fetchA : String → AssetResult)
    (cache : List (String × Asset)) (assetURL assetType : String) :
    Asset × List (String × Asset) × Nat :=
  match cacheLookup cache assetURL with
  | some cached => (cached, cache, 0)
  | none =>
    let result := fetchA assetURL
    let asset : Asset :=
      { url := assetURL
        assetType := assetType
        statusCode := result.statusCode
        sizeBytes := result.sizeBytes
        errorMsg := match result.errorMsg with
                    | some e => e
                    | none => "" }
    (asset, (assetURL, asset) :: cache, 1)

/-- Embedding of `parser.AssetInfo`. -/
structure AssetInfo where
  url : String
  assetType : String
deriving DecidableEq, Repr

/-- The per-asset loop of `AssetChecker.CheckAssets`, concurrency
collapsed to sequential order: one record per discovered asset, the cache
threaded through, fetches counted. -/
def checkAssetsLoop (fetchA : String → AssetResult)
    (cache : List (String × Asset)) :
    List AssetInfo → List Asset × List (String × Asset) × Nat
  | [] => ([], cache, 0)
  | info :: rest =>
    let r1 := checkSingleAsset fetchA cache info.url info.assetType
    let r2 := checkAssetsLoop fetchA r1.2.1 rest
    (r1.1 :: r2.1, r2.2.1, r1.2.2 + r2.2.2)

/-- Embedding of `AssetChecker.CheckAssets` given the extracted asset
infos: run every single-asset check, then stably sort the records by
their `Type` field as the Go code does. -/
def checkAssets (fetchA : String → AssetResult)
    (cache : List (String × Asset)) (assetInfos : List AssetInfo) :
    List Asset × List (String × Asset) × Nat :=
  ((checkAssetsLoop fetchA cache assetInfos).1.mergeSort
      (fun a b => a.assetType ≤ b.assetType),
   (checkAssetsLoop fetchA cache assetInfos).2.1,
   (checkAssetsLoop fetchA cache assetInfos).2.2)

/-- Model of a parsed `golang.org/x/net/html` node: an element with a tag
name, attributes and children, or any non-element node (text, comment),
which the extraction walk only descends through. -/
inductive HNode where
  | elem (tag : String) (attrs : List (String × String))
      (children : List HNode)
  | other (children : List HNode)
deriving Repr

/-- Embedding of `parser.getAttr`: value of the first attribute with the
given key, "" when absent. -/
def getAttr (attrs : List (String × String)) (key : String) : String :=
  match attrs.find? (fun a => a.1 == key) with
  | some a => a.2
  | none => ""

mutual

/-- Embedding of the DOM walk of `parser.ExtractAssets`.  `resolve` stands
for `urlutil.ResolveURL(·, pageURL)`; an asset is emitted only when the
resolved URL is non-empty.  Element cases exactly as the Go switch:
img/src as "image", script/src as "script", link rel=stylesheet href as
"style". -/
def extractAssetsNode (resolve : String → String) : HNode → List AssetInfo
  | HNode.elem tag attrs children =>
    let here : List AssetInfo :=
      if tag = "img" then
        let src := getAttr attrs "src"
        if src ≠ "" ∧ resolve src ≠ "" then
          [{ url := resolve src, assetType := "image" }]
        else []
      else if tag = "script" then
        let src := getAttr attrs "src"
        if src ≠ "" ∧ resolve src ≠ "" then
          [{ url := resolve src, assetType := "script" }]
        else []
      else if tag = "link" then
        if getAttr attrs "rel" = "stylesheet" then
          let href := getAttr attrs "href"
          if href ≠ "" ∧ resolve href ≠ "" then
            [{ url := resolve href, assetType := "style" }]
          else []
        else []
      else []
    here ++ extractAssetsList resolve children
  | HNode.other children => extractAssetsList resolve children

/-- Extraction over a list of sibling nodes. -/
def extractAssetsList (resolve : String → String) :
    List HNode → List AssetInfo
  | [] => []
  | n :: ns => extractAssetsNode resolve n ++ extractAssetsList resolve ns

end

/-- Environment of one crawl: for every URL string, the outcome of
`fetcher.Fetch` for it, and the links `parser.ExtractLinks` extracts from
its HTML body.  Link strings are represented by their parsed `url.URL`
values (`ExtractLinks` emits only absolute URL strings produced by
`ResolveURL`, which `url.Parse` round-trips; a parse failure makes
`enqueueInternalLinks` skip the link and is modelled by omitting it). -/
structure Site where
  fetch : String → FetchResult
  links : String → List GoURL

/-- The fields of `report.Page` the verified claims speak about. -/
structure PageRec where
  url : String
  depth : Int
  httpStatus : Int
  status : String
  errorMsg : String
deriving DecidableEq, Repr

/-- Sequential crawl state: the frontier queue, the visited set and the
report page list. -/
structure CrawlState where
  queue : List (String × Int)
  visited : List String
  pages : List PageRec
deriving DecidableEq, Repr

/-- Embedding of the loop body of `Crawler.enqueueInternalLinks`: keep
same-domain links, normalize them, drop the ones already visited, and
pair the survivors with the given depth. -/
def enqueueInternalLinks (base : GoURL) (visited : List String)
    (links : List GoURL) (depth : Int) : List (String × Int) :=
  links.filterMap fun l =>
    if isSameDomain l base then
      if visited.contains (normalizeURL l) then none
      else some (normalizeURL l, depth)
    else none

/-- Embedding of `Crawler.processSingleURL`, sequentialized (the enclosing
worker runs to completion; cancellation absent): skip visited URLs,
otherwise mark visited, fetch, derive the page status, and on an HTML body
run the sub-checks and enqueue the admitted links when the page is "ok"
and the depth budget remains. -/
def processSingleURL (site : Site) (base : GoURL) (maxDepth : Int)
    (s : CrawlState) (urlStr : String) (depth : Int) : CrawlState :=
  if s.visited.contains urlStr then s
  else
    let visited1 := urlStr :: s.visited
    let result := site.fetch urlStr
    match result.errorMsg with
    | some e =>
      let st := setPageStatus result.statusCode e
      let page : PageRec := { url := urlStr, depth := depth,
                              httpStatus := result.statusCode,
                              status := st.1, errorMsg := st.2 }
      { queue := s.queue, visited := visited1, pages := s.pages ++ [page] }
    | none =>
      let st := setPageStatus result.statusCode ""
      let page : PageRec := { url := urlStr, depth := depth,
                              httpStatus := result.statusCode,
                              status := st.1, errorMsg := st.2 }
      if result.htmlContent ≠ "" then
        let queue1 :=
          if depth + 1 < maxDepth ∧ st.1 = "ok" then
            s.queue ++
              enqueueInternalLinks base visited1 (site.links urlStr)
                (depth + 1)
          else s.queue
        { queue := queue1, visited := visited1, pages := s.pages ++ [page] }
      else
        { queue := s.queue, visited := visited1, pages := s.pages ++ [page] }

/-- Embedding of `Crawler.Run`, sequentialized with fuel: dequeue the
head and process it; on an empty queue the join of workers is a no-op and
the re-check still finds the queue empty, so the loop exits.  `none`
means the fuel ran out before the loop exited. -/
def crawlRun (site : Site) (base : GoURL) (maxDepth : Int) :
    Nat → CrawlState → Option CrawlState
  | 0, _ => none
  | fuel + 1, s =>
    match s.queue with
    | [] => some s
    | (u, d) :: rest =>
      crawlRun site base maxDepth fuel
        (processSingleURL site base maxDepth
          { queue := rest, visited := s.visited, pages := s.pages } u d)

/-- Initial crawl state built by `state.NewCrawlState`: the frontier is
seeded with `rootURL.String()` at depth 0 and the visited set is empty. -/
def initState (root : GoURL) : CrawlState :=
  { queue := [(GoURL.render root, 0)], visited := [], pages := [] }

/-- Program counter of a worker executing the visited-set portion of
`processSingleURL`.  Each constructor is one mutex-protected atomic
action of the Go code: the `Visited.Contains` call, the `Visited.Add`
call, and the fetch-and-append tail (collapsed into one atomic action,
which only removes interleavings). -/
inductive WorkerPc where
  | atCheck
  | atAdd
  | atFetch
  | done
deriving DecidableEq, Repr

/-- One worker: the URL it was dispatched for and its program counter. -/
structure Worker where
  url : String
  pc : WorkerPc
deriving DecidableEq, Repr

/-- Interleaved system state: the shared visited set, the report page
URLs, and the dispatched workers. -/
structure RaceState where
  visited : List String
  pages : List String
  workers : List Worker
deriving DecidableEq, Repr

/-- Run one atomic action of worker `i` (no-op when `i` is out of range
or the worker is done). -/
def stepWorker (s : RaceState) (i : Nat) : RaceState :=
  match s.workers[i]? with
  | none => s
  | some w =>
    match w.pc with
    | WorkerPc.atCheck =>
      if s.visited.contains w.url then
        { s with workers := s.workers.set i { w with pc := WorkerPc.done } }
      else
        { s with workers := s.workers.set i { w with pc := WorkerPc.atAdd } }
    | WorkerPc.atAdd =>
      { s with visited := w.url :: s.visited,
               workers := s.workers.set i { w with pc := WorkerPc.atFetch } }
    | WorkerPc.atFetch =>
      { s with pages := s.pages ++ [w.url],
               workers := s.workers.set i { w with pc := WorkerPc.done } }
    | WorkerPc.done => s

/-- Run a schedule: a list of worker indices, each performing its next
atomic action in turn. -/
def runSchedule (s : RaceState) (schedule : List Nat) : RaceState :=
  schedule.foldl stepWorker s

/-- The page record `processSingleURL` builds for a claimed URL: HTTP
status from the fetch result, page status and error text derived by
`SetPageStatus` (seeded with the fetch error text when one is present,
with the empty text otherwise). -/
def derivedPage (site : Site) (u : String) (d : Int) : PageRec :=
  let result := site.fetch u
  let st := setPageStatus result.statusCode (result.errorMsg.getD "")
  { url := u, depth := d, httpStatus := result.statusCode,
    status := st.1, errorMsg := st.2 }

/-- Written from the words of the specification, for comparison with the
source-derived `enqueueInternalLinks`: the admitted set is exactly the
discovered links that are same-domain with the root, normalized, and not
already in the visited set, each paired with the given depth. -/
def admittedLinksSpec (base : GoURL) (visited : List String)
    (links : List GoURL) (depth : Int) : List (String × Int) :=
  (links.filter
      (fun l => isSameDomain l base && ! visited.contains (normalizeURL l))).map
    (fun l => (normalizeURL l, depth))

/-- Number of universe URLs not yet visited. -/
def unvisitedCount (univ visited : List String) : Nat :=
  (univ.filter (fun x => ! visited.contains x)).length

/-- Termination measure of the crawl loop: every step either removes a
queue entry without visiting anything new, or claims a fresh universe URL
paying for at most `linkBound` new queue entries. -/
def crawlMeasure (univ : List String) (linkBound : Nat)
    (s : CrawlState) : Nat :=
  unvisitedCount univ s.visited * (linkBound + 1) + s.queue.length

/-! ## Theorems -/

/-- C1.  The claim-and-mark step of `processSingleURL` is not one atomic
critical section: `Visited.Contains` and `Visited.Add` each take and
release the mutex separately.  With two workers dispatched for the same
URL (possible, since `enqueueInternalLinks` admits duplicate frontier
entries), the interleaving check0, check1, add0, fetch0, add1, fetch1
lets both workers pass the contains check before either marks, so the
URL is fetched twice and appears twice in the report pages, violating the
at-most-once-fetch invariant; a serialized schedule of the same two
workers produces the single record the claim demands. -/
theorem processSingleURL_check_then_mark_race :
    (runSchedule
        { visited := [], pages := [],
          workers := [{ url := "https://example.com/a", pc := WorkerPc.atCheck },
                      { url := "https://example.com/a", pc := WorkerPc.atCheck }] }
        [0, 1, 0, 0, 1, 1]).pages
      = ["https://example.com/a", "https://example.com/a"] ∧
    ¬ (runSchedule
        { visited := [], pages := [],
          workers := [{ url := "https://example.com/a", pc := WorkerPc.atCheck },
                      { url := "https://example.com/a", pc := WorkerPc.atCheck }] }
        [0, 1, 0, 0, 1, 1]).pages.Nodup ∧
    (runSchedule
        { visited := [], pages := [],
          workers := [{ url := "https://example.com/a", pc := WorkerPc.atCheck },
                      { url := "https://example.com/a", pc := WorkerPc.atCheck }] }
        [0, 0, 0, 1]).pages
      = ["https://example.com/a"] := by
  refine ⟨rfl, ?_, rfl⟩
  decide

/-- C9 counterexample.  The root URL seeding the frontier is
`rootURL.String()`, not `NormalizeURL(rootURL)`: crawling the root
`https://example.com/` puts the string with the bare "/" root path into
the visited set, while its normalized form drops that slash, so the
visited set holds a non-normalized URL string. -/
theorem visited_root_not_normalized :
    (crawlRun
        { fetch := fun _ => { statusCode := 0, htmlContent := "",
                              errorMsg := some "connection refused" },
          links := fun _ => [] }
        { scheme := "https", host := "example.com", path := "/",
          query := "", fragment := "" }
        10 2
        (initState
          { scheme := "https", host := "example.com", path := "/",
            query := "", fragment := "" })).map CrawlState.visited
      = some ["https://example.com/"] ∧
    normalizeURL
        { scheme := "https", host := "example.com", path := "/",
          query := "", fragment := "" }
      = "https://example.com" ∧
    ("https://example.com/" : String) ≠ "https://example.com" := by
  refine ⟨rfl, rfl, ?_⟩
  decide

/-- C8 counterexample.  A discovered stylesheet asset is recorded with
type "style", not "stylesheet": the parser switch labels
`link rel=stylesheet` assets with the literal "style", so the produced
AssetRecord type is outside the claimed vocabulary
{image, script, stylesheet, other}. -/
theorem asset_type_stylesheet_is_style :
    (checkAssets (fun _ => { statusCode := 200, sizeBytes := 10, errorMsg := none })
        []
        (extractAssetsNode (fun s => s)
          (HNode.elem "link" [("rel", "stylesheet"), ("href", "https://example.com/s.css")]
            []))).1
      = [{ url := "https://example.com/s.css", assetType := "style",
           statusCode := 200, sizeBytes := 10, errorMsg := "" }] ∧
    ("style" : String) ∉
      (["image", "script", "stylesheet", "other"] : List String) := by
  refine ⟨?_, by decide⟩
  simp [checkAssets, checkAssetsLoop, checkSingleAsset, cacheLookup,
    extractAssetsNode, extractAssetsList, getAttr, List.mergeSort]

/-! ### Fetch retry helpers -/

theorem shouldRetry_eq_true_iff (r : FetchResult) :
    shouldRetry r = true ↔
      (r.errorMsg ≠ none ∨ r.statusCode = 429 ∨
        (500 ≤ r.statusCode ∧ r.statusCode < 600)) := by
  unfold shouldRetry
  split_ifs with h1 h2 h3 <;> simp_all

theorem fetchFrom_halt (attempts : Nat → FetchResult) (m : Int)
    (attempt budget : Nat)
    (h : shouldRetry (attempts attempt) = false) :
    fetchFrom attempts m attempt (budget + 1) =
      (attempts attempt, attempt + 1) := by
  have hr := (shouldRetry_eq_true_iff (attempts attempt))
  rw [h] at hr
  simp only [false_iff, not_or, not_and, not_not, not_lt, ne_eq] at hr
  simp only [fetchFrom]
  split_ifs with h1 h2
  · rfl
  · rfl
  · exact absurd (Or.inr (by simp [h])) h2

theorem fetchFrom_continue (attempts : Nat → FetchResult) (m : Int)
    (attempt budget : Nat)
    (h : shouldRetry (attempts attempt) = true)
    (hm : (attempt : Int) ≠ m) :
    fetchFrom attempts m attempt (budget + 1) =
      fetchFrom attempts m (attempt + 1) budget := by
  have hr := (shouldRetry_eq_true_iff (attempts attempt)).mp h
  simp only [fetchFrom]
  split_ifs with h1 h2
  · rcases hr with he | h429 | h5xx
    · exact absurd h1.1 he
    · exact absurd h429 h1.2.2
    · exact absurd h1.2.1 (by omega)
  · rcases h2 with hm2 | hs
    · exact absurd hm2 hm
    · exact absurd h hs
  · rfl

theorem fetchFrom_last (attempts : Nat → FetchResult) (m : Int)
    (attempt budget : Nat)
    (hm : (attempt : Int) = m) :
    fetchFrom attempts m attempt (budget + 1) =
      (attempts attempt, attempt + 1) := by
  simp only [fetchFrom]
  split_ifs with h1 h2
  · rfl
  · rfl
  · exact absurd (Or.inl hm) h2

theorem fetchFrom_runs_to (attempts : Nat → FetchResult) (m : Int) (j : Nat)
    (hret : ∀ i < j, shouldRetry (attempts i) = true)
    (hstop : shouldRetry (attempts j) = false)
    (hjm : (j : Int) ≤ m) :
    ∀ budget k, k ≤ j → j + 1 ≤ k + budget →
      fetchFrom attempts m k budget = (attempts j, j + 1) := by
  intro budget
  induction budget with
  | zero => intro k hk hbud; omega
  | succ b ih =>
    intro k hk hbud
    rcases Nat.eq_or_lt_of_le hk with heq | hlt
    · subst heq
      rw [fetchFrom_halt attempts m k b hstop]
    · have hne : (k : Int) ≠ m := by
        have : (k : Int) < (j : Int) := by exact_mod_cast hlt
        omega
      rw [fetchFrom_continue attempts m k b (hret k hlt) hne]
      exact ih (k + 1) hlt (by omega)

theorem fetchFrom_exhaust (attempts : Nat → FetchResult) (m : Int)
    (hm : 0 ≤ m)
    (hall : ∀ i : Nat, (i : Int) ≤ m → shouldRetry (attempts i) = true) :
    ∀ budget k, k + (budget + 1) = m.toNat + 1 →
      fetchFrom attempts m k (budget + 1) =
        (attempts m.toNat, m.toNat + 1) := by
  intro budget
  induction budget with
  | zero =>
    intro k hk
    have hkm : k = m.toNat := by omega
    subst hkm
    have : ((m.toNat : Int)) = m := Int.toNat_of_nonneg hm
    rw [fetchFrom_last attempts m m.toNat 0 this]
  | succ b ih =>
    intro k hk
    have hkm : k < m.toNat := by omega
    have hki : (k : Int) ≤ m := by
      have : ((m.toNat : Int)) = m := Int.toNat_of_nonneg hm
      omega
    have hne : (k : Int) ≠ m := by
      have : ((m.toNat : Int)) = m := Int.toNat_of_nonneg hm
      omega
    rw [fetchFrom_continue attempts m k (b + 1) (hall k hki) hne]
    exact ih (k + 1) (by omega)

theorem fetchFrom_count (attempts : Nat → FetchResult) (m : Int) :
    ∀ budget k, (fetchFrom attempts m k budget).2 ≤ k + budget := by
  intro budget
  induction budget with
  | zero => intro k; simp [fetchFrom]
  | succ b ih =>
    intro k
    simp only [fetchFrom]
    split_ifs with h1 h2
    · omega
    · omega
    · exact le_trans (ih (k + 1)) (by omega)

/-- C3.  Retry policy of `Fetcher.Fetch` without cancellation: (1) an
attempt is retryable exactly when it produced a transport error, a 429,
or a status in [500, 600); (2) the first non-retryable attempt j within
the budget is returned immediately after j+1 attempts, even for j = 0;
(3) when every attempt within the budget is retryable, the last
(maxRetries-indexed) attempt is returned verbatim after maxRetries + 1
attempts, with no synthesized error; (4) never more than maxRetries + 1
attempts are made. -/
theorem fetch_retry_policy (attempts : Nat → FetchResult) (m : Int)
    (hm : 0 ≤ m) :
    (∀ r, shouldRetry r = true ↔
      (r.errorMsg ≠ none ∨ r.statusCode = 429 ∨
        (500 ≤ r.statusCode ∧ r.statusCode < 600))) ∧
    (∀ j : Nat, (j : Int) ≤ m →
      (∀ i < j, shouldRetry (attempts i) = true) →
      shouldRetry (attempts j) = false →
      fetchGo attempts m = (attempts j, j + 1)) ∧
    ((∀ i : Nat, (i : Int) ≤ m → shouldRetry (attempts i) = true) →
      fetchGo attempts m = (attempts m.toNat, m.toNat + 1)) ∧
    (fetchGo attempts m).2 ≤ m.toNat + 1 := by
  have hneg : ¬ m < 0 := by omega
  have hcast : ((m.toNat : Int)) = m := Int.toNat_of_nonneg hm
  refine ⟨shouldRetry_eq_true_iff, ?_, ?_, ?_⟩
  · intro j hjm hret hstop
    unfold fetchGo
    rw [if_neg hneg]
    refine fetchFrom_runs_to attempts m j hret hstop hjm (m.toNat + 1) 0
      (by omega) (by omega)
  · intro hall
    unfold fetchGo
    rw [if_neg hneg]
    exact fetchFrom_exhaust attempts m hm hall m.toNat 0 (by omega)
  · unfold fetchGo
    rw [if_neg hneg]
    exact le_trans (fetchFrom_count attempts m (m.toNat + 1) 0) (by omega)

/-- C3 witness: with one configured retry, a 500 on the first attempt is
retried and the 404 of the second attempt is returned immediately after
exactly two attempts. -/
theorem fetch_retry_policy_witness :
    fetchGo
        (fun i => if i = 0 then { statusCode := 500, htmlContent := "", errorMsg := none }
                  else { statusCode := 404, htmlContent := "", errorMsg := none })
        1
      = ({ statusCode := 404, htmlContent := "", errorMsg := none }, 2) := by
  exact (fetch_retry_policy
    (fun i => if i = 0 then { statusCode := 500, htmlContent := "", errorMsg := none }
              else { statusCode := 404, htmlContent := "", errorMsg := none })
    1 (by decide)).2.1 1 (by decide) (by decide) (by decide)

/-! ### Crawl loop helpers -/

theorem processSingleURL_visited (site : Site) (base : GoURL) (maxD : Int)
    (s : CrawlState) (u : String) (d : Int)
    (h : s.visited.contains u = true) :
    processSingleURL site base maxD s u d = s := by
  unfold processSingleURL
  rw [if_pos h]

theorem processSingleURL_new (site : Site) (base : GoURL) (maxD : Int)
    (s : CrawlState) (u : String) (d : Int)
    (h : s.visited.contains u = false) :
    processSingleURL site base maxD s u d =
      { queue := s.queue ++
          (if (site.fetch u).errorMsg = none ∧
              (site.fetch u).htmlContent ≠ "" ∧
              d + 1 < maxD ∧
              (setPageStatus (site.fetch u).statusCode "").1 = "ok"
           then enqueueInternalLinks base (u :: s.visited) (site.links u)
                  (d + 1)
           else []),
        visited := u :: s.visited,
        pages := s.pages ++ [derivedPage site u d] } := by
  unfold processSingleURL derivedPage
  simp only [h, Bool.false_eq_true, if_false]
  cases herr : (site.fetch u).errorMsg with
  | some e => simp [herr]
  | none =>
    simp only [herr, Option.getD_none, Option.getD_some]
    by_cases hh : (site.fetch u).htmlContent = ""
    · simp [hh]
    · by_cases hg : d + 1 < maxD ∧
        (setPageStatus (site.fetch u).statusCode "").1 = "ok"
      · simp [hh, hg]
      · simp only [ne_eq, hh, not_false_eq_true, if_true, hg, if_false]
        simp [hg]

theorem crawlRun_inv (site : Site) (base : GoURL) (maxD : Int)
    (P : CrawlState → Prop)
    (hstep : ∀ s u d rest, s.queue = (u, d) :: rest → P s →
      P (processSingleURL site base maxD
          { queue := rest, visited := s.visited, pages := s.pages } u d)) :
    ∀ fuel s t, P s → crawlRun site base maxD fuel s = some t → P t := by
  intro fuel
  induction fuel with
  | zero => intro s t _ h; simp [crawlRun] at h
  | succ f ih =>
    intro s t hP h
    rcases hq : s.queue with _ | ⟨⟨u, d⟩, rest⟩
    · simp only [crawlRun, hq, Option.some.injEq] at h
      exact h ▸ hP
    · simp only [crawlRun, hq] at h
      exact ih _ t (hstep s u d rest hq hP) h

theorem crawlRun_some_queue_nil (site : Site) (base : GoURL) (maxD : Int) :
    ∀ fuel s t, crawlRun site base maxD fuel s = some t → t.queue = [] := by
  intro fuel
  induction fuel with
  | zero => intro s t h; simp [crawlRun] at h
  | succ f ih =>
    intro s t h
    rcases hq : s.queue with _ | ⟨⟨u, d⟩, rest⟩
    · simp only [crawlRun, hq, Option.some.injEq] at h
      rw [← h, hq]
    · simp only [crawlRun, hq] at h
      exact ih _ t h

theorem enqueueInternalLinks_mem (base : GoURL) (visited : List String)
    (links : List GoURL) (depth : Int) (e : String × Int)
    (h : e ∈ enqueueInternalLinks base visited links depth) :
    ∃ l ∈ links, isSameDomain l base = true ∧
      visited.contains (normalizeURL l) = false ∧
      e = (normalizeURL l, depth) := by
  unfold enqueueInternalLinks at h
  rcases List.mem_filterMap.mp h with ⟨l, hl, he⟩
  refine ⟨l, hl, ?_⟩
  split at he
  case isTrue h1 =>
    split at he
    case isTrue h2 => simp at he
    case isFalse h2 =>
      injection he with he2
      exact ⟨h1, by simpa using h2, he2.symm⟩
  case isFalse h1 => simp at he

theorem enqueueInternalLinks_length_le (base : GoURL) (visited : List String)
    (links : List GoURL) (depth : Int) :
    (enqueueInternalLinks base visited links depth).length ≤ links.length :=
  List.length_filterMap_le _ _

theorem crawlRun_succ_cons (site : Site) (base : GoURL) (maxD : Int)
    (fuel : Nat) (u : String) (d : Int) (rest : List (String × Int))
    (visited : List String) (pages : List PageRec) :
    crawlRun site base maxD (fuel + 1)
        { queue := (u, d) :: rest, visited := visited, pages := pages } =
      crawlRun site base maxD fuel
        (processSingleURL site base maxD
          { queue := rest, visited := visited, pages := pages } u d) := rfl

theorem crawlRun_succ_nil (site : Site) (base : GoURL) (maxD : Int)
    (fuel : Nat) (visited : List String) (pages : List PageRec) :
    crawlRun site base maxD (fuel + 1)
        { queue := [], visited := visited, pages := pages } =
      some { queue := [], visited := visited, pages := pages } := rfl

/-- C4.  Depth bound: with a configured depth N at least 0, every page
record in any completed crawl has depth at most N; a page at depth d with
d + 1 at or above N enqueues nothing; and at N = 0 the crawl completes in
two loop iterations with exactly the root page record, whatever links the
root page carries. -/
theorem depth_bound (site : Site) (base root : GoURL) (maxD : Int)
    (hN : 0 ≤ maxD) :
    (∀ fuel final,
      crawlRun site base maxD fuel (initState root) = some final →
      ∀ p ∈ final.pages, p.depth ≤ maxD) ∧
    (∀ s u d, ¬ (d + 1 < maxD) →
      (processSingleURL site base maxD s u d).queue = s.queue) ∧
    (maxD = 0 →
      crawlRun site base maxD 2 (initState root) =
        some { queue := [], visited := [GoURL.render root],
               pages := [derivedPage site (GoURL.render root) 0] }) := by
  refine ⟨?_, ?_, ?_⟩
  · intro fuel final hrun
    have hinv := crawlRun_inv site base maxD
      (fun s => (∀ e ∈ s.queue, e.2 ≤ maxD) ∧
                (∀ p ∈ s.pages, p.depth ≤ maxD))
      ?_ fuel _ final ?_ hrun
    · exact hinv.2
    · intro s u d rest hq hP
      rcases hP with ⟨hQ, hPg⟩
      have hd : d ≤ maxD := by
        have := hQ (u, d) (by rw [hq]; exact List.mem_cons_self _ _)
        simpa using this
      by_cases hv : s.visited.contains u = true
      · rw [processSingleURL_visited site base maxD
          { queue := rest, visited := s.visited, pages := s.pages } u d hv]
        exact ⟨fun e he => hQ e (by rw [hq]; exact List.mem_cons_of_mem _ he),
               hPg⟩
      · have hv2 : s.visited.contains u = false := by simpa using hv
        rw [processSingleURL_new site base maxD
          { queue := rest, visited := s.visited, pages := s.pages } u d hv2]
        constructor
        · intro e he
          rcases List.mem_append.mp he with h1 | h2
          · exact hQ e (by rw [hq]; exact List.mem_cons_of_mem _ h1)
          · split at h2
            next hc =>
              rcases enqueueInternalLinks_mem _ _ _ _ _ h2 with
                ⟨l, _, _, _, he2⟩
              rw [he2]
              have := hc.2.2.1
              simpa using by omega
            next => simp at h2
        · intro p hp
          rcases List.mem_append.mp hp with h1 | h2
          · exact hPg p h1
          · simp only [List.mem_singleton] at h2
            rw [h2]
            simpa [derivedPage] using hd
    · constructor
      · intro e he
        simp only [initState, List.mem_singleton] at he
        rw [he]
        exact hN
      · intro p hp
        simp [initState] at hp
  · intro s u d hnd
    by_cases hv : s.visited.contains u = true
    · rw [processSingleURL_visited site base maxD s u d hv]
    · have hv2 : s.visited.contains u = false := by simpa using hv
      rw [processSingleURL_new site base maxD s u d hv2]
      simp only
      rw [if_neg (fun hc => hnd hc.2.2.1)]
      simp
  · intro h0
    subst h0
    have h1 : processSingleURL site base 0
        { queue := [], visited := [], pages := [] } (GoURL.render root) 0 =
        { queue := [], visited := [GoURL.render root],
          pages := [derivedPage site (GoURL.render root) 0] } := by
      rw [processSingleURL_new site base 0 _ _ _ (by rfl)]
      rw [if_neg (fun hc => by omega)]
      simp
    calc crawlRun site base 0 2 (initState root)
        = crawlRun site base 0 1
            (processSingleURL site base 0
              { queue := [], visited := [], pages := [] }
              (GoURL.render root) 0) := rfl
      _ = some { queue := [], visited := [GoURL.render root],
                 pages := [derivedPage site (GoURL.render root) 0] } := by
          rw [h1]
          exact crawlRun_succ_nil site base 0 0 _ _

/-- C4 witness: a root answering 200 with links, crawled at depth 0,
yields exactly the root page record. -/
theorem depth_bound_witness :
    crawlRun
        { fetch := fun _ => { statusCode := 200,
                              htmlContent := "<a href=x></a>",
                              errorMsg := none },
          links := fun _ => [{ scheme := "https", host := "example.com",
                               path := "/x", query := "", fragment := "" }] }
        { scheme := "https", host := "example.com", path := "",
          query := "", fragment := "" }
        0 2
        (initState
          { scheme := "https", host := "example.com", path := "/",
            query := "", fragment := "" }) =
      some { queue := [], visited := ["https://example.com/"],
             pages := [{ url := "https://example.com/", depth := 0,
                         httpStatus := 200, status := "ok",
                         errorMsg := "" }] } := by
  exact (depth_bound
    { fetch := fun _ => { statusCode := 200,
                          htmlContent := "<a href=x></a>",
                          errorMsg := none },
      links := fun _ => [{ scheme := "https", host := "example.com",
                           path := "/x", query := "", fragment := "" }] }
    { scheme := "https", host := "example.com", path := "",
      query := "", fragment := "" }
    { scheme := "https", host := "example.com", path := "/",
      query := "", fragment := "" }
    0 (by decide)).2.2 rfl

theorem enqueueInternalLinks_eq_spec (base : GoURL) (visited : List String)
    (links : List GoURL) (d : Int) :
    enqueueInternalLinks base visited links d =
      admittedLinksSpec base visited links d := by
  induction links with
  | nil => rfl
  | cons l t ih =>
    by_cases hsd : isSameDomain l base = true
    · by_cases hv : normalizeURL l ∈ visited
      · simp [enqueueInternalLinks, admittedLinksSpec, List.filterMap_cons,
          List.filter_cons, hsd, hv] at ih ⊢
        exact ih
      · simp [enqueueInternalLinks, admittedLinksSpec, List.filterMap_cons,
          List.filter_cons, hsd, hv] at ih ⊢
        exact ih
    · have hsd2 : isSameDomain l base = false := by simpa using hsd
      simp [enqueueInternalLinks, admittedLinksSpec, List.filterMap_cons,
        List.filter_cons, hsd2] at ih ⊢
      exact ih

/-- C5.  Frontier admission: the enqueued set equals the spec description
(same-domain links, normalized, not already visited, at depth d + 1); a
changed queue implies the URL was fresh, the fetch succeeded, the derived
status is "ok" and the depth budget remained, and the queue grew by
exactly the admitted set; a page whose derived status is "redirect"
enqueues nothing. -/
theorem frontier_admission (site : Site) (base : GoURL) (maxD : Int) :
    (∀ visited links d,
      enqueueInternalLinks base visited links d =
        admittedLinksSpec base visited links d) ∧
    (∀ s u d,
      (processSingleURL site base maxD s u d).queue ≠ s.queue →
      s.visited.contains u = false ∧
      (site.fetch u).errorMsg = none ∧
      (setPageStatus (site.fetch u).statusCode "").1 = "ok" ∧
      d + 1 < maxD ∧
      (processSingleURL site base maxD s u d).queue =
        s.queue ++
          admittedLinksSpec base (u :: s.visited) (site.links u) (d + 1)) ∧
    (∀ s u d,
      (setPageStatus (site.fetch u).statusCode "").1 = "redirect" →
      (processSingleURL site base maxD s u d).queue = s.queue) := by
  refine ⟨fun visited links d => enqueueInternalLinks_eq_spec base visited links d,
    ?_, ?_⟩
  · intro s u d hne
    by_cases hv : s.visited.contains u = true
    · exact absurd (congrArg CrawlState.queue
        (processSingleURL_visited site base maxD s u d hv)) hne
    · have hv2 : s.visited.contains u = false := by simpa using hv
      rw [processSingleURL_new site base maxD s u d hv2] at hne ⊢
      by_cases hc : (site.fetch u).errorMsg = none ∧
          (site.fetch u).htmlContent ≠ "" ∧
          d + 1 < maxD ∧
          (setPageStatus (site.fetch u).statusCode "").1 = "ok"
      · refine ⟨hv2, hc.1, hc.2.2.2, hc.2.2.1, ?_⟩
        simp only [if_pos hc]
        rw [enqueueInternalLinks_eq_spec]
      · simp only [if_neg hc, List.append_nil] at hne
        exact absurd rfl hne
  · intro s u d hred
    by_cases hv : s.visited.contains u = true
    · rw [processSingleURL_visited site base maxD s u d hv]
    · have hv2 : s.visited.contains u = false := by simpa using hv
      rw [processSingleURL_new site base maxD s u d hv2]
      simp only
      rw [if_neg (fun hc => by
        rw [hred] at hc
        exact absurd hc.2.2.2 (by decide))]
      simp

/-- C5 witness: a fresh 200 page at depth 0 with budget 2 changes the
queue, and the admitted set is exactly the normalized same-domain link. -/
theorem frontier_admission_witness :
    (([] : List String)).contains "https://example.com" = false ∧
    (none : Option String) = none ∧
    (setPageStatus 200 "").1 = "ok" ∧
    (0 : Int) + 1 < 2 ∧
    (processSingleURL
        { fetch := fun _ => { statusCode := 200, htmlContent := "<a></a>",
                              errorMsg := none },
          links := fun _ => [{ scheme := "https", host := "example.com",
                               path := "/a", query := "", fragment := "" },
                             { scheme := "https", host := "other.com",
                               path := "/b", query := "", fragment := "" }] }
        { scheme := "https", host := "example.com", path := "",
          query := "", fragment := "" }
        2 { queue := [], visited := [], pages := [] }
        "https://example.com" 0).queue =
      [] ++ admittedLinksSpec
        { scheme := "https", host := "example.com", path := "",
          query := "", fragment := "" }
        ("https://example.com" :: [])
        [{ scheme := "https", host := "example.com",
           path := "/a", query := "", fragment := "" },
         { scheme := "https", host := "other.com",
           path := "/b", query := "", fragment := "" }] 1 := by
  exact (frontier_admission
    { fetch := fun _ => { statusCode := 200, htmlContent := "<a></a>",
                          errorMsg := none },
      links := fun _ => [{ scheme := "https", host := "example.com",
                           path := "/a", query := "", fragment := "" },
                         { scheme := "https", host := "other.com",
                           path := "/b", query := "", fragment := "" }] }
    { scheme := "https", host := "example.com", path := "",
      query := "", fragment := "" }
    2).2.1 { queue := [], visited := [], pages := [] }
    "https://example.com" 0 (by decide)

/-! ### Termination measure lemmas -/

theorem filter_imp_length_le {α : Type} (l : List α) (p q : α → Bool)
    (himp : ∀ x, q x = true → p x = true) :
    (l.filter q).length ≤ (l.filter p).length := by
  induction l with
  | nil => simp
  | cons a t ih =>
    by_cases hq : q a = true
    · have hp := himp a hq
      simp only [List.filter_cons, hq, hp, if_true, List.length_cons]
      exact Nat.succ_le_succ ih
    · have hq2 : q a = false := by simpa using hq
      by_cases hp : p a = true
      · simp only [List.filter_cons, hq2, hp, Bool.false_eq_true, if_false,
          if_true, List.length_cons]
        exact Nat.le_succ_of_le ih
      · have hp2 : p a = false := by simpa using hp
        simp only [List.filter_cons, hq2, hp2, Bool.false_eq_true, if_false]
        exact ih

theorem filter_imp_length_lt {α : Type} (l : List α) (p q : α → Bool)
    (himp : ∀ x, q x = true → p x = true) (u : α) (hu : u ∈ l)
    (hpu : p u = true) (hqu : q u = false) :
    (l.filter q).length + 1 ≤ (l.filter p).length := by
  induction l with
  | nil => cases hu
  | cons a t ih =>
    rcases List.mem_cons.mp hu with h1 | h1
    · subst h1
      simp only [List.filter_cons, hqu, hpu, Bool.false_eq_true, if_false,
        if_true, List.length_cons]
      exact Nat.succ_le_succ (filter_imp_length_le t p q himp)
    · by_cases hq : q a = true
      · have hp := himp a hq
        have := ih h1
        simp only [List.filter_cons, hq, hp, if_true, List.length_cons]
        omega
      · have hq2 : q a = false := by simpa using hq
        by_cases hp : p a = true
        · have := ih h1
          simp only [List.filter_cons, hq2, hp, Bool.false_eq_true, if_false,
            if_true, List.length_cons]
          omega
        · have hp2 : p a = false := by simpa using hp
          simp only [List.filter_cons, hq2, hp2, Bool.false_eq_true, if_false]
          exact ih h1

theorem contains_cons_false {u x : String} {visited : List String}
    (h : (u :: visited).contains x = false) :
    visited.contains x = false := by
  by_cases hx : visited.contains x = true
  · have : (u :: visited).contains x = true := by
      have hmem : x ∈ visited := by simpa using hx
      simpa using List.mem_cons_of_mem u hmem
    rw [this] at h
    cases h
  · simpa using hx

theorem unvisitedCount_cons_le (univ visited : List String) (u : String) :
    unvisitedCount univ (u :: visited) ≤ unvisitedCount univ visited := by
  refine filter_imp_length_le univ _ _ ?_
  intro x hx
  simp only [Bool.not_eq_true'] at hx ⊢
  exact contains_cons_false hx

theorem unvisitedCount_cons_lt (univ visited : List String) (u : String)
    (hu : u ∈ univ) (hnv : visited.contains u = false) :
    unvisitedCount univ (u :: visited) + 1 ≤ unvisitedCount univ visited := by
  refine filter_imp_length_lt univ _ _ ?_ u hu ?_ ?_
  · intro x hx
    simp only [Bool.not_eq_true'] at hx ⊢
    exact contains_cons_false hx
  · show (!visited.contains u) = true
    simp only [hnv, Bool.not_false]
  · show (!(u :: visited).contains u) = false
    simp

theorem crawlRun_total (site : Site) (base : GoURL) (maxD : Int)
    (univ : List String) (L : Nat)
    (hlinks : ∀ u l, l ∈ site.links u → isSameDomain l base = true →
      normalizeURL l ∈ univ)
    (hL : ∀ u, (site.links u).length ≤ L) :
    ∀ n s, (∀ e ∈ s.queue, e.1 ∈ univ) → crawlMeasure univ L s ≤ n →
      ∃ t, crawlRun site base maxD (n + 1) s = some t := by
  intro n
  induction n with
  | zero =>
    intro s hq hm
    obtain ⟨Q, V, P⟩ := s
    have hq0 : Q.length = 0 := by
      unfold crawlMeasure at hm
      simp only at hm
      omega
    have hQ : Q = [] := List.length_eq_zero.mp hq0
    subst hQ
    exact ⟨_, crawlRun_succ_nil site base maxD 0 V P⟩
  | succ n ih =>
    intro s hq hm
    obtain ⟨Q, V, P⟩ := s
    rcases hqe : Q with _ | ⟨⟨u, d⟩, rest⟩
    · subst hqe
      exact ⟨_, crawlRun_succ_nil site base maxD (n + 1) V P⟩
    · subst hqe
      rw [crawlRun_succ_cons]
      have hu_univ : u ∈ univ := by
        have := hq (u, d) (List.mem_cons_self _ _)
        simpa using this
      by_cases hv : V.contains u = true
      · rw [processSingleURL_visited site base maxD
          { queue := rest, visited := V, pages := P } u d hv]
        apply ih
        · intro e he
          exact hq e (List.mem_cons_of_mem _ he)
        · unfold crawlMeasure at hm ⊢
          simp only [List.length_cons] at hm ⊢
          omega
      · have hv2 : V.contains u = false := by simpa using hv
        rw [processSingleURL_new site base maxD
          { queue := rest, visited := V, pages := P } u d hv2]
        apply ih
        · intro e he
          simp only at he
          rcases List.mem_append.mp he with h1 | h2
          · exact hq e (List.mem_cons_of_mem _ h1)
          · split at h2
            next hc =>
              rcases enqueueInternalLinks_mem _ _ _ _ _ h2 with
                ⟨l, hl, hsd, _, he2⟩
              rw [he2]
              exact hlinks u l hl hsd
            next => simp at h2
        · have hdec := unvisitedCount_cons_lt univ V u hu_univ hv2
          have hlen : (if (site.fetch u).errorMsg = none ∧
              (site.fetch u).htmlContent ≠ "" ∧
              d + 1 < maxD ∧
              (setPageStatus (site.fetch u).statusCode "").1 = "ok"
              then enqueueInternalLinks base (u :: V) (site.links u) (d + 1)
              else []).length ≤ L := by
            split
            · exact le_trans (enqueueInternalLinks_length_le _ _ _ _) (hL u)
            · simp
          unfold crawlMeasure at hm ⊢
          simp only [List.length_cons, List.length_append] at hm ⊢
          have hmul : (unvisitedCount univ (u :: V) + 1) * (L + 1) ≤
              unvisitedCount univ V * (L + 1) :=
            Nat.mul_le_mul_right _ hdec
          rw [Nat.add_mul, Nat.one_mul] at hmul
          omega

/-- C2.  Termination: over any finite same-domain link graph (all
normalized same-domain links drawn from a finite universe, with a uniform
bound on the links per page) and any configured depth, the sequentialized
crawl loop reaches its exit (queue empty after the final join) within a
computable fuel; workers are synchronous in this collapse, so none is in
flight at exit. -/
theorem crawl_terminates (site : Site) (base root : GoURL) (maxD : Int)
    (univ : List String) (L : Nat)
    (hroot : GoURL.render root ∈ univ)
    (hlinks : ∀ u l, l ∈ site.links u → isSameDomain l base = true →
      normalizeURL l ∈ univ)
    (hL : ∀ u, (site.links u).length ≤ L) :
    ∃ fuel final,
      crawlRun site base maxD fuel (initState root) = some final ∧
      final.queue = [] := by
  have hinit : ∀ e ∈ (initState root).queue, e.1 ∈ univ := by
    intro e he
    simp only [initState, List.mem_singleton] at he
    rw [he]
    exact hroot
  obtain ⟨t, ht⟩ := crawlRun_total site base maxD univ L hlinks hL
    (crawlMeasure univ L (initState root)) (initState root) hinit le_rfl
  exact ⟨_, t, ht, crawlRun_some_queue_nil site base maxD _ _ t ht⟩

/-- C2 witness: a two-page site (root linking to one same-domain page)
crawled at depth 3 terminates with an empty queue. -/
theorem crawl_terminates_witness :
    ∃ fuel final,
      crawlRun
        { fetch := fun _ => { statusCode := 200,
                              htmlContent := "<a href=/a></a>",
                              errorMsg := none },
          links := fun _ => [{ scheme := "https", host := "example.com",
                               path := "/a", query := "", fragment := "" }] }
        { scheme := "https", host := "example.com", path := "",
          query := "", fragment := "" }
        3 fuel
        (initState
          { scheme := "https", host := "example.com", path := "",
            query := "", fragment := "" }) = some final ∧
      final.queue = [] := by
  exact crawl_terminates
    { fetch := fun _ => { statusCode := 200,
                          htmlContent := "<a href=/a></a>",
                          errorMsg := none },
      links := fun _ => [{ scheme := "https", host := "example.com",
                           path := "/a", query := "", fragment := "" }] }
    { scheme := "https", host := "example.com", path := "",
      query := "", fragment := "" }
    { scheme := "https", host := "example.com", path := "",
      query := "", fragment := "" }
    3 ["https://example.com", "https://example.com/a"] 1
    (by decide)
    (by
      intro u l hl hsd
      simp only [List.mem_singleton] at hl
      subst hl
      decide)
    (by intro u; simp)

/-! ### Link checker helpers -/

theorem checkSingleLink_eq_none_iff (probe : String → FetchResult)
    (url : String) :
    checkSingleLink probe url = none ↔
      (200 ≤ (probe url).statusCode ∧ (probe url).statusCode < 400 ∧
        (probe url).errorMsg = none) := by
  unfold checkSingleLink
  split_ifs with h
  · simp [h]
  · simp [h]

theorem checkSingleLink_some (probe : String → FetchResult) (url : String)
    (b : BrokenLink) (h : checkSingleLink probe url = some b) :
    b.url = url ∧
    ¬ (200 ≤ (probe url).statusCode ∧ (probe url).statusCode < 400 ∧
        (probe url).errorMsg = none) ∧
    (b.statusCode = 0 ∨ b.errorMsg = "") := by
  unfold checkSingleLink at h
  split_ifs at h with hcond
  injection h with hb
  subst hb
  refine ⟨rfl, hcond, ?_⟩
  cases he : (probe url).errorMsg with
  | some e => left; simp [he]
  | none => right; simp [he]

/-- C6.  The link checker result contains a record exactly for the links
whose final probe outcome is unhealthy (an error, or a final status
outside [200, 400)); every record carries either the error text or the
status code, never both (the other field staying at its zero value); an
empty input yields an empty result, the timestamp, and no probes; a
non-empty input probes each link exactly once. -/
theorem link_checker_results (probe : String → FetchResult) (now : String)
    (links : List String) :
    (∀ b ∈ (checkLinks probe now links).1,
      b.url ∈ links ∧
      ¬ (200 ≤ (probe b.url).statusCode ∧ (probe b.url).statusCode < 400 ∧
          (probe b.url).errorMsg = none) ∧
      (b.statusCode = 0 ∨ b.errorMsg = "")) ∧
    (∀ url ∈ links,
      ¬ (200 ≤ (probe url).statusCode ∧ (probe url).statusCode < 400 ∧
          (probe url).errorMsg = none) →
      ∃ b ∈ (checkLinks probe now links).1, b.url = url) ∧
    checkLinks probe now [] = ([], now, 0) ∧
    (links ≠ [] → (checkLinks probe now links).2.2 = links.length) := by
  refine ⟨?_, ?_, rfl, ?_⟩
  · intro b hb
    unfold checkLinks at hb
    split_ifs at hb with hemp
    · simp at hb
    · simp only at hb
      rcases List.mem_filterMap.mp hb with ⟨url, hmem, heq⟩
      rcases checkSingleLink_some probe url b heq with ⟨hurl, hunh, hz⟩
      rw [hurl]
      exact ⟨hmem, hunh, hz⟩
  · intro url hu hunh
    have hemp : links.isEmpty = false := by
      cases links with
      | nil => cases hu
      | cons a t => rfl
    cases hs : checkSingleLink probe url with
    | none => exact absurd ((checkSingleLink_eq_none_iff probe url).mp hs) hunh
    | some b =>
      refine ⟨b, ?_, (checkSingleLink_some probe url b hs).1⟩
      unfold checkLinks
      rw [hemp]
      simp only [Bool.false_eq_true, if_false]
      exact List.mem_filterMap.mpr ⟨url, hu, hs⟩
  · intro hne
    have hemp : links.isEmpty = false := by
      cases links with
      | nil => exact absurd rfl hne
      | cons a t => rfl
    unfold checkLinks
    rw [hemp]
    simp

/-- C6 witness: of a healthy 200 link and a broken 404 link, the broken
one yields a record. -/
theorem link_checker_results_witness :
    ∃ b ∈ (checkLinks
        (fun u => if u = "https://example.com/good"
                  then { statusCode := 200, htmlContent := "", errorMsg := none }
                  else { statusCode := 404, htmlContent := "", errorMsg := none })
        "2024-01-01T00:00:00Z"
        ["https://example.com/good", "https://example.com/bad"]).1,
      b.url = "https://example.com/bad" := by
  exact (link_checker_results
    (fun u => if u = "https://example.com/good"
              then { statusCode := 200, htmlContent := "", errorMsg := none }
              else { statusCode := 404, htmlContent := "", errorMsg := none })
    "2024-01-01T00:00:00Z"
    ["https://example.com/good", "https://example.com/bad"]).2.1
    "https://example.com/bad" (by decide) (by decide)

/-- C7.  Asset cache memoization: a cache hit returns the stored record
verbatim, leaves the cache unchanged and issues no network fetch; from a
miss, a second sequential check of the same URL (as from another page)
hits and returns the same record, for exactly one fetch in total. -/
theorem asset_cache_memoization (fetchA : String → AssetResult)
    (cache : List (String × Asset)) (url ty ty2 : String) :
    (∀ a, cacheLookup cache url = some a →
      checkSingleAsset fetchA cache url ty = (a, cache, 0)) ∧
    (cacheLookup cache url = none →
      (checkSingleAsset fetchA cache url ty).2.2 = 1 ∧
      (checkSingleAsset fetchA
          (checkSingleAsset fetchA cache url ty).2.1 url ty2).2.2 = 0 ∧
      (checkSingleAsset fetchA
          (checkSingleAsset fetchA cache url ty).2.1 url ty2).1 =
        (checkSingleAsset fetchA cache url ty).1 ∧
      (checkSingleAsset fetchA cache url ty).2.2 +
        (checkSingleAsset fetchA
          (checkSingleAsset fetchA cache url ty).2.1 url ty2).2.2 = 1) := by
  constructor
  · intro a ha
    unfold checkSingleAsset
    rw [ha]
  · intro h
    have h1 : checkSingleAsset fetchA cache url ty =
        ({ url := url, assetType := ty,
           statusCode := (fetchA url).statusCode,
           sizeBytes := (fetchA url).sizeBytes,
           errorMsg := match (fetchA url).errorMsg with
                       | some e => e
                       | none => "" },
         (url, { url := url, assetType := ty,
                 statusCode := (fetchA url).statusCode,
                 sizeBytes := (fetchA url).sizeBytes,
                 errorMsg := match (fetchA url).errorMsg with
                             | some e => e
                             | none => "" }) :: cache, 1) := by
      unfold checkSingleAsset
      rw [h]
    have hhit : cacheLookup
        ((url, { url := url, assetType := ty,
                 statusCode := (fetchA url).statusCode,
                 sizeBytes := (fetchA url).sizeBytes,
                 errorMsg := match (fetchA url).errorMsg with
                             | some e => e
                             | none => "" }) :: cache) url =
        some { url := url, assetType := ty,
               statusCode := (fetchA url).statusCode,
               sizeBytes := (fetchA url).sizeBytes,
               errorMsg := match (fetchA url).errorMsg with
                           | some e => e
                           | none => "" } := by
      unfold cacheLookup
      rw [List.find?_cons_of_pos _ (by simp)]
    have h2 : checkSingleAsset fetchA
        ((url, { url := url, assetType := ty,
                 statusCode := (fetchA url).statusCode,
                 sizeBytes := (fetchA url).sizeBytes,
                 errorMsg := match (fetchA url).errorMsg with
                             | some e => e
                             | none => "" }) :: cache) url ty2 =
        ({ url := url, assetType := ty,
           statusCode := (fetchA url).statusCode,
           sizeBytes := (fetchA url).sizeBytes,
           errorMsg := match (fetchA url).errorMsg with
                       | some e => e
                       | none => "" },
         (url, { url := url, assetType := ty,
                 statusCode := (fetchA url).statusCode,
                 sizeBytes := (fetchA url).sizeBytes,
                 errorMsg := match (fetchA url).errorMsg with
                             | some e => e
                             | none => "" }) :: cache, 0) := by
      unfold checkSingleAsset
      rw [hhit]
    rw [h1, h2]
    exact ⟨rfl, rfl, rfl, rfl⟩

/-- C7 witness: with an empty cache, checking the same image URL from two
pages issues exactly one fetch and returns the same record twice. -/
theorem asset_cache_memoization_witness :
    (checkSingleAsset (fun _ => { statusCode := 200, sizeBytes := 12345, errorMsg := none })
        [] "https://example.com/i.png" "image").2.2 = 1 ∧
    (checkSingleAsset (fun _ => { statusCode := 200, sizeBytes := 12345, errorMsg := none })
        (checkSingleAsset (fun _ => { statusCode := 200, sizeBytes := 12345, errorMsg := none })
          [] "https://example.com/i.png" "image").2.1
        "https://example.com/i.png" "image").2.2 = 0 ∧
    (checkSingleAsset (fun _ => { statusCode := 200, sizeBytes := 12345, errorMsg := none })
        (checkSingleAsset (fun _ => { statusCode := 200, sizeBytes := 12345, errorMsg := none })
          [] "https://example.com/i.png" "image").2.1
        "https://example.com/i.png" "image").1 =
      (checkSingleAsset (fun _ => { statusCode := 200, sizeBytes := 12345, errorMsg := none })
        [] "https://example.com/i.png" "image").1 ∧
    (checkSingleAsset (fun _ => { statusCode := 200, sizeBytes := 12345, errorMsg := none })
        [] "https://example.com/i.png" "image").2.2 +
      (checkSingleAsset (fun _ => { statusCode := 200, sizeBytes := 12345, errorMsg := none })
        (checkSingleAsset (fun _ => { statusCode := 200, sizeBytes := 12345, errorMsg := none })
          [] "https://example.com/i.png" "image").2.1
        "https://example.com/i.png" "image").2.2 = 1 := by
  exact (asset_cache_memoization
    (fun _ => { statusCode := 200, sizeBytes := 12345, errorMsg := none })
    [] "https://example.com/i.png" "image" "image").2 rfl

/-! ### Asset type vocabulary helpers -/

mutual

theorem extractAssetsNode_types (resolve : String → String) (n : HNode) :
    ∀ info ∈ extractAssetsNode resolve n,
      info.assetType ∈ (["image", "script", "style"] : List String) :=
  match n with
  | HNode.elem tag attrs children => by
    intro info hinfo
    unfold extractAssetsNode at hinfo
    rcases List.mem_append.mp hinfo with h1 | h2
    · split_ifs at h1 <;> simp_all
    · exact extractAssetsList_types resolve children info h2
  | HNode.other children => by
    intro info hinfo
    unfold extractAssetsNode at hinfo
    exact extractAssetsList_types resolve children info hinfo

theorem extractAssetsList_types (resolve : String → String)
    (ns : List HNode) :
    ∀ info ∈ extractAssetsList resolve ns,
      info.assetType ∈ (["image", "script", "style"] : List String) :=
  match ns with
  | [] => by
    intro info h
    simp [extractAssetsList] at h
  | n :: t => by
    intro info h
    unfold extractAssetsList at h
    rcases List.mem_append.mp h with h1 | h2
    · exact extractAssetsNode_types resolve n info h1
    · exact extractAssetsList_types resolve t info h2

end

theorem cacheLookup_some_mem (cache : List (String × Asset)) (url : String)
    (a : Asset) (h : cacheLookup cache url = some a) :
    ∃ k, (k, a) ∈ cache := by
  unfold cacheLookup at h
  cases hf : cache.find? (fun e => e.1 == url) with
  | none => rw [hf] at h; simp at h
  | some e =>
    rw [hf] at h
    injection h with h2
    subst h2
    exact ⟨e.1, by simpa using List.mem_of_find?_eq_some hf⟩

theorem checkAssetsLoop_cons (fetchA : String → AssetResult)
    (cache : List (String × Asset)) (info : AssetInfo)
    (t : List AssetInfo) :
    checkAssetsLoop fetchA cache (info :: t) =
      ((checkSingleAsset fetchA cache info.url info.assetType).1 ::
         (checkAssetsLoop fetchA
           (checkSingleAsset fetchA cache info.url info.assetType).2.1 t).1,
       (checkAssetsLoop fetchA
         (checkSingleAsset fetchA cache info.url info.assetType).2.1 t).2.1,
       (checkSingleAsset fetchA cache info.url info.assetType).2.2 +
         (checkAssetsLoop fetchA
           (checkSingleAsset fetchA cache info.url info.assetType).2.1
           t).2.2) := rfl

theorem checkAssetsLoop_spec (fetchA : String → AssetResult) :
    ∀ (infos : List AssetInfo) (cache : List (String × Asset)),
      (∀ e ∈ cache,
        e.2.assetType ∈ (["image", "script", "style"] : List String)) →
      (∀ info ∈ infos,
        info.assetType ∈ (["image", "script", "style"] : List String)) →
      (∀ a ∈ (checkAssetsLoop fetchA cache infos).1,
        a.assetType ∈ (["image", "script", "style"] : List String)) ∧
      (∀ e ∈ (checkAssetsLoop fetchA cache infos).2.1,
        e.2.assetType ∈ (["image", "script", "style"] : List String)) ∧
      (checkAssetsLoop fetchA cache infos).1.length = infos.length := by
  intro infos
  induction infos with
  | nil =>
    intro cache hc hi
    exact ⟨by simp [checkAssetsLoop],
           by simpa [checkAssetsLoop] using hc,
           by simp [checkAssetsLoop]⟩
  | cons info t ih =>
    intro cache hc hi
    have hstep : ((checkSingleAsset fetchA cache info.url info.assetType).1.assetType
          ∈ (["image", "script", "style"] : List String)) ∧
        (∀ e ∈ (checkSingleAsset fetchA cache info.url info.assetType).2.1,
          e.2.assetType ∈ (["image", "script", "style"] : List String)) := by
      unfold checkSingleAsset
      cases hl : cacheLookup cache info.url with
      | some a =>
        obtain ⟨k, hk⟩ := cacheLookup_some_mem cache info.url a hl
        exact ⟨hc (k, a) hk, hc⟩
      | none =>
        constructor
        · exact hi info (List.mem_cons_self _ _)
        · intro e he
          rcases List.mem_cons.mp he with h1 | h1
          · rw [h1]
            exact hi info (List.mem_cons_self _ _)
          · exact hc e h1
    have ihx := ih ((checkSingleAsset fetchA cache info.url info.assetType).2.1)
      hstep.2 (fun x hx => hi x (List.mem_cons_of_mem _ hx))
    rw [checkAssetsLoop_cons]
    refine ⟨?_, ihx.2.1, ?_⟩
    · intro a ha
      rcases List.mem_cons.mp ha with h1 | h1
      · rw [h1]
        exact hstep.1
      · exact ihx.1 a h1
    · simp only [List.length_cons]
      rw [ihx.2.2]

/-- C8 amended.  Asset type vocabulary: every AssetInfo the parser walk
discovers has type "image", "script" or "style" (the source labels
stylesheets "style", not "stylesheet", and never emits "other"); given a
cache whose records respect that vocabulary, every AssetRecord produced
by CheckAssets does too, and one record is produced per discovered asset,
healthy or not. -/
theorem asset_type_vocabulary (resolve : String → String)
    (fetchA : String → AssetResult) (cache : List (String × Asset))
    (node : HNode)
    (hcache : ∀ e ∈ cache,
      e.2.assetType ∈ (["image", "script", "style"] : List String)) :
    (∀ info ∈ extractAssetsNode resolve node,
      info.assetType ∈ (["image", "script", "style"] : List String)) ∧
    (∀ a ∈ (checkAssets fetchA cache (extractAssetsNode resolve node)).1,
      a.assetType ∈ (["image", "script", "style"] : List String)) ∧
    (checkAssets fetchA cache (extractAssetsNode resolve node)).1.length =
      (extractAssetsNode resolve node).length := by
  have htypes := extractAssetsNode_types resolve node
  have hloop := checkAssetsLoop_spec fetchA (extractAssetsNode resolve node)
    cache hcache htypes
  have hperm :=
    List.mergeSort_perm
      (checkAssetsLoop fetchA cache (extractAssetsNode resolve node)).1
      (fun a b => a.assetType ≤ b.assetType)
  refine ⟨htypes, ?_, ?_⟩
  · intro a ha
    unfold checkAssets at ha
    exact hloop.1 a (hperm.mem_iff.mp ha)
  · unfold checkAssets
    rw [hperm.length_eq]
    exact hloop.2.2

/-- C8 amended witness: one discovered image produces one record of type
"image" from an empty cache. -/
theorem asset_type_vocabulary_witness :
    (∀ info ∈ extractAssetsNode (fun s => s)
        (HNode.elem "img" [("src", "https://example.com/i.png")] []),
      info.assetType ∈ (["image", "script", "style"] : List String)) ∧
    (∀ a ∈ (checkAssets (fun _ => { statusCode := 200, sizeBytes := 5,
                                    errorMsg := none }) []
        (extractAssetsNode (fun s => s)
          (HNode.elem "img" [("src", "https://example.com/i.png")] []))).1,
      a.assetType ∈ (["image", "script", "style"] : List String)) ∧
    (checkAssets (fun _ => { statusCode := 200, sizeBytes := 5,
                             errorMsg := none }) []
        (extractAssetsNode (fun s => s)
          (HNode.elem "img" [("src", "https://example.com/i.png")] []))).1.length =
      (extractAssetsNode (fun s => s)
        (HNode.elem "img" [("src", "https://example.com/i.png")] [])).length := by
  exact asset_type_vocabulary (fun s => s)
    (fun _ => { statusCode := 200, sizeBytes := 5, errorMsg := none })
    [] (HNode.elem "img" [("src", "https://example.com/i.png")] [])
    (by intro e he; simp at he)

/-- C9 amended.  Every URL string entering the visited set is either the
root seed `rootURL.String()` (which is not passed through NormalizeURL)
or the output of NormalizeURL on some discovered link; in particular all
non-root visited URLs are normalized. -/
theorem visited_normalized_except_root (site : Site) (base root : GoURL)
    (maxD : Int) (fuel : Nat) (final : CrawlState)
    (h : crawlRun site base maxD fuel (initState root) = some final) :
    ∀ v ∈ final.visited,
      v = GoURL.render root ∨ ∃ l : GoURL, v = normalizeURL l := by
  have hinv := crawlRun_inv site base maxD
    (fun s =>
      (∀ e ∈ s.queue,
        e.1 = GoURL.render root ∨ ∃ l : GoURL, e.1 = normalizeURL l) ∧
      (∀ v ∈ s.visited,
        v = GoURL.render root ∨ ∃ l : GoURL, v = normalizeURL l))
    ?_ fuel _ final ?_ h
  · exact hinv.2
  · intro s u d rest hq hP
    rcases hP with ⟨hQ, hV⟩
    have hu := hQ (u, d) (by rw [hq]; exact List.mem_cons_self _ _)
    by_cases hv : s.visited.contains u = true
    · rw [processSingleURL_visited site base maxD
        { queue := rest, visited := s.visited, pages := s.pages } u d hv]
      exact ⟨fun e he => hQ e (by rw [hq]; exact List.mem_cons_of_mem _ he),
             hV⟩
    · have hv2 : s.visited.contains u = false := by simpa using hv
      rw [processSingleURL_new site base maxD
        { queue := rest, visited := s.visited, pages := s.pages } u d hv2]
      constructor
      · intro e he
        rcases List.mem_append.mp he with h1 | h2
        · exact hQ e (by rw [hq]; exact List.mem_cons_of_mem _ h1)
        · split at h2
          next =>
            rcases enqueueInternalLinks_mem _ _ _ _ _ h2 with
              ⟨l, _, _, _, he2⟩
            right
            exact ⟨l, by rw [he2]⟩
          next => simp at h2
      · intro v hv3
        rcases List.mem_cons.mp hv3 with h1 | h1
        · rw [h1]
          exact hu
        · exact hV v h1
  · refine ⟨?_, ?_⟩
    · intro e he
      simp only [initState, List.mem_singleton] at he
      rw [he]
      left
      rfl
    · intro v hv
      simp [initState] at hv

/-- C9 amended witness: crawling a normalized root, the single visited
URL is the root seed. -/
theorem visited_normalized_except_root_witness :
    ("https://example.com" : String) =
      GoURL.render { scheme := "https", host := "example.com",
                     path := "", query := "", fragment := "" } ∨
    ∃ l : GoURL, ("https://example.com" : String) = normalizeURL l := by
  exact visited_normalized_except_root
    { fetch := fun _ => { statusCode := 0, htmlContent := "",
                          errorMsg := some "connection refused" },
      links := fun _ => [] }
    { scheme := "https", host := "example.com", path := "",
      query := "", fragment := "" }
    { scheme := "https", host := "example.com", path := "",
      query := "", fragment := "" }
    10 2
    { queue := [], visited := ["https://example.com"],
      pages := [{ url := "https://example.com", depth := 0, httpStatus := 0,
                  status := "error", errorMsg := "connection refused" }] }
    rfl "https://example.com" (List.mem_singleton.mpr rfl)

/-- C10.  Negative retries edge case: option normalization leaves the
retries count untouched; with a negative retries count the fetch loop
performs zero attempts and returns the zero FetchResult (status 0, no
body, no error); deriving the page status from HTTP status 0 with no
error text yields "error" and the default message; and the crawler then
records exactly such a page for the claimed URL. -/
theorem negative_retries_behavior (opts : Options)
    (attempts : Nat → FetchResult) (m : Int) (hm : m < 0)
    (site : Site) (base : GoURL) (maxD : Int) (s : CrawlState)
    (u : String) (d : Int)
    (hv : s.visited.contains u = false)
    (hf : site.fetch u = { statusCode := 0, htmlContent := "",
                           errorMsg := none }) :
    (normalizeOptions opts).retries = opts.retries ∧
    fetchGo attempts m =
      ({ statusCode := 0, htmlContent := "", errorMsg := none }, 0) ∧
    setPageStatus 0 "" = ("error", "no response received") ∧
    (processSingleURL site base maxD s u d).pages =
      s.pages ++ [{ url := u, depth := d, httpStatus := 0,
                    status := "error",
                    errorMsg := "no response received" }] := by
  refine ⟨?_, ?_, rfl, ?_⟩
  · simp only [normalizeOptions]
    split_ifs <;> rfl
  · unfold fetchGo
    rw [if_pos hm]
    rfl
  · rw [processSingleURL_new site base maxD s u d hv]
    simp [derivedPage, hf, setPageStatus]

/-- C10 witness: with retries set to -1 the fetch returns the zero result
with zero attempts, and the crawler records the page as "error" with the
default message. -/
theorem negative_retries_behavior_witness :
    (normalizeOptions
        { url := "https://example.com", depth := 10, retries := -1,
          delay := 0, timeout := 0, userAgent := "", concurrency := 0,
          indentJSON := false, hasHTTPClient := false }).retries = -1 ∧
    fetchGo (fun _ => { statusCode := 200, htmlContent := "",
                        errorMsg := none }) (-1) =
      ({ statusCode := 0, htmlContent := "", errorMsg := none }, 0) ∧
    setPageStatus 0 "" = ("error", "no response received") ∧
    (processSingleURL
        { fetch := fun _ => { statusCode := 0, htmlContent := "",
                              errorMsg := none },
          links := fun _ => [] }
        { scheme := "https", host := "example.com", path := "",
          query := "", fragment := "" }
        10 { queue := [], visited := [], pages := [] }
        "https://example.com" 0).pages =
      [] ++ [{ url := "https://example.com", depth := 0, httpStatus := 0,
               status := "error",
               errorMsg := "no response received" }] := by
  exact negative_retries_behavior
    { url := "https://example.com", depth := 10, retries := -1,
      delay := 0, timeout := 0, userAgent := "", concurrency := 0,
      indentJSON := false, hasHTTPClient := false }
    (fun _ => { statusCode := 200, htmlContent := "", errorMsg := none })
    (-1) (by decide)
    { fetch := fun _ => { statusCode := 0, htmlContent := "",
                          errorMsg := none },
      links := fun _ => [] }
    { scheme := "https", host := "example.com", path := "",
      query := "", fragment := "" }
    10 { queue := [], visited := [], pages := [] }
    "https://example.com" 0 rfl rfl

end Crawler
